import Mathlib

/-!
# Verification of the PyPaint canvas state engine

Shallow embedding of the canvas core of `src/code/main.py` (class `Canvas`):
the pixel-buffer model, the bounded undo/redo history, the flood-fill
algorithm, the zoom / coordinate-transform math, and the tool-state setters,
together with theorems settling the specification claims about them.

Conventions of the embedding:
* a pixel color is a record of four channels (values 0..255 in the program;
  the claims never do channel arithmetic, so plain `Nat` fields suffice);
* the pixel grid of a `QImage` is a function `Pt → Color` (`Pt = ℤ × ℤ`)
  together with its width and height, matching `pixelColor`/`setPixelColor`;
* Python `float` scalars (zoom scale, event positions) are embedded as `ℚ`;
* Python's `collections.deque(maxlen=50)` is a list whose right end is the
  top; `append` evicts the oldest (leftmost) entry when full;
* Qt signal emissions are returned as an explicit list of `Sig` values.
-/

namespace PyPaint

/-- An RGBA color, as held by `QColor` (channels 0..255). -/
structure Color where
  r : Nat
  g : Nat
  b : Nat
  a : Nat
deriving DecidableEq, Repr

/-- `Qt.transparent` / `QColor(0, 0, 0, 0)`. -/
def transparent : Color := ⟨0, 0, 0, 0⟩

/-- `Qt.black`. -/
def black : Color := ⟨0, 0, 0, 255⟩

/-- Opaque white. -/
def white : Color := ⟨255, 255, 255, 255⟩

/-- Opaque red. -/
def redCol : Color := ⟨255, 0, 0, 255⟩

/-- An integer pixel coordinate, as used by the flood-fill queue. -/
abbrev Pt := Int × Int

-- Constants from the top of main.py.
def MAX_UNDO_STATES : Nat := 50
def MAX_CANVAS_DIM : Int := 10000
def MIN_PEN_SIZE : Int := 1
def MAX_PEN_SIZE : Int := 100
def DEFAULT_PEN_SIZE : Int := 5

/-- `0 <= x < w and 0 <= y < h`: the bounds test of `image.rect().contains`
and of the in-loop check of `flood_fill`. -/
def inBP (w h : Int) (p : Pt) : Prop :=
  0 ≤ p.1 ∧ p.1 < w ∧ 0 ≤ p.2 ∧ p.2 < h

instance (w h : Int) (p : Pt) : Decidable (inBP w h p) := by
  unfold inBP; infer_instance

/-- `image.setPixelColor(q, c)` on a functional pixel grid. -/
def setPix (f : Pt → Color) (q : Pt) (c : Color) : Pt → Color :=
  fun p => if p = q then c else f p

/-- The neighbor list `[(x+1,y), (x-1,y), (x,y+1), (x,y-1)]` of `flood_fill`. -/
def neighborsOf (p : Pt) : List Pt :=
  [(p.1 + 1, p.2), (p.1 - 1, p.2), (p.1, p.2 + 1), (p.1, p.2 - 1)]

/-- 4-connectivity: `q` is one of the four neighbors of `p`. -/
def Adj (p q : Pt) : Prop := q ∈ neighborsOf p

/-- `ReachesIn U a b`: there is a path `a = r₀, …, rₙ = b` of 4-connected
steps whose every vertex satisfies `U` (the "same-color territory" of the
spec's flood-fill description). -/
inductive ReachesIn (U : Pt → Prop) : Pt → Pt → Prop where
  | refl (p : Pt) (hp : U p) : ReachesIn U p p
  | step (q r p : Pt) (hq : U q) (hqr : Adj q r) (h : ReachesIn U r p) :
      ReachesIn U q p

/-- The "same-color territory" of a pixel grid: in-bounds pixels whose
color equals `target`. -/
def Ucur (w h : Int) (target : Color) (pix : Pt → Color) (r : Pt) : Prop :=
  inBP w h r ∧ pix r = target

/-- Reachability from `seed` through the `target`-colored territory of
`img0`. -/
def Reach (w h : Int) (img0 : Pt → Color) (target : Color) (seed p : Pt) : Prop :=
  ReachesIn (Ucur w h target img0) seed p

/-- The flood-fill region of `img` from `seed`: pixels 4-connected-reachable
from the seed through in-bounds pixels whose color equals the seed's color. -/
def fillRegion (w h : Int) (img : Pt → Color) (seed : Pt) (p : Pt) : Prop :=
  Reach w h img (img seed) seed p

/-- The mutable state of the `while queue:` loop of `Canvas.flood_fill`:
the pixel grid, the pending `queue`, and the `processed` set (kept as the
list of coordinates in order of first insertion). -/
structure FillSt where
  pix : Pt → Color
  queue : List Pt
  processed : List Pt

/-- One iteration of the `while queue:` body of `Canvas.flood_fill`, applied
to the dequeued head `p` and the remaining queue `rest`:
skip `p` if out of bounds, otherwise if its current color is the target,
repaint it and enqueue its not-yet-processed neighbors. -/
def fillStep (w h : Int) (target fillc : Color) (p : Pt) (rest : List Pt)
    (pix : Pt → Color) (proc : List Pt) : FillSt :=
  if inBP w h p then
    if pix p = target then
      let nn := (neighborsOf p).filter (fun n => decide (n ∉ proc))
      ⟨setPix pix p fillc, rest ++ nn, proc ++ nn⟩
    else ⟨pix, rest, proc⟩
  else ⟨pix, rest, proc⟩

/-- The `while queue:` loop of `Canvas.flood_fill`.  The Python loop has no
fuel; the `fuel` argument is an embedding artifact, and
`fillLoop_queue_empties` below proves that `floodFillFuel` iterations always
drain the queue, so the fueled loop computes the loop's true result. -/
def fillLoop (w h : Int) (target fillc : Color) : Nat → FillSt → FillSt
  | 0, s => s
  | Nat.succ fuel, s =>
    match s.queue with
    | [] => s
    | p :: rest =>
        fillLoop w h target fillc fuel (fillStep w h target fillc p rest s.pix s.processed)

/-- Fuel sufficient to drain the flood-fill queue: the buffer area plus its
one-pixel border, `(w+2)*(h+2)`. -/
def floodFillFuel (w h : Int) : Nat := (w + 2).toNat * (h + 2).toNat

/-- `Canvas.flood_fill(start_image_point, erase_mode)` acting on a pixel
grid of size `w × h` with current color `cur`: no-op if the seed is out of
bounds or already has the fill color, otherwise run the breadth-first loop. -/
def flood_fill (w h : Int) (pix : Pt → Color) (seed : Pt) (cur : Color)
    (eraseMode : Bool) : Pt → Color :=
  if inBP w h seed then
    let target := pix seed
    let fillc := if eraseMode then transparent else cur
    if target = fillc then pix
    else (fillLoop w h target fillc (floodFillFuel w h) ⟨pix, [seed], [seed]⟩).pix
  else pix

/-- The coordinates the flood-fill loop can ever touch: the buffer rectangle
inflated by a one-pixel border. -/
def borderSet (w h : Int) : Finset Pt :=
  Finset.Icc (-1) w ×ˢ Finset.Icc (-1) h

/-- Termination measure of the flood-fill loop: pending queue entries plus
coordinates of the bordered rectangle not yet processed. -/
def fillMeasure (w h : Int) (s : FillSt) : Nat :=
  s.queue.length + ((borderSet w h).card - s.processed.length)

/-- Loop invariant of the flood-fill traversal over original image `img0`:
pixels are only ever repainted to `fillc` (`mono`), pixels outside the seed's
region are untouched (`sound`), every still-unpainted region pixel is
reachable from a queued pixel through currently-`target` territory
(`complete`), every processed pixel is pending, done or irrelevant
(`procInv`), and every queued pixel is the seed or a neighbor of a region
pixel (`queueOrigin`). -/
structure FillInv (w h : Int) (img0 : Pt → Color) (seed : Pt)
    (target fillc : Color) (s : FillSt) : Prop where
  mono : ∀ p, s.pix p = fillc ∨ s.pix p = img0 p
  sound : ∀ p, ¬ Reach w h img0 target seed p → s.pix p = img0 p
  complete : ∀ p, Reach w h img0 target seed p → s.pix p ≠ fillc →
      ∃ q ∈ s.queue, ReachesIn (Ucur w h target s.pix) q p
  procInv : ∀ p ∈ s.processed,
      p ∈ s.queue ∨ s.pix p = fillc ∨ ¬ Ucur w h target s.pix p
  queueOrigin : ∀ q ∈ s.queue,
      q = seed ∨ ∃ r, Reach w h img0 target seed r ∧ Adj r q

/-- Bookkeeping invariant from which termination of the flood-fill loop
follows: the processed list never holds a coordinate twice (each coordinate
is enqueued at most once) and only holds coordinates of the bordered
rectangle. -/
structure TermSt (w h : Int) (s : FillSt) : Prop where
  nodup : s.processed.Nodup
  inBorder : ∀ p ∈ s.processed, p ∈ borderSet w h

/-!
## Zoom and coordinate transforms
-/

/-- `QPointF.toPoint()` rounding (qRound): round half away from zero. -/
def qRound (x : ℚ) : ℤ := if 0 ≤ x then ⌊x + 1 / 2⌋ else ⌈x - 1 / 2⌉

/-- Python's built-in `round` (used as `int(round(x))` in `_zoom_at_point`):
round half to even. -/
def pyRound (x : ℚ) : ℤ :=
  if x - ⌊x⌋ < 1 / 2 then ⌊x⌋
  else if 1 / 2 < x - ⌊x⌋ then ⌊x⌋ + 1
  else if Even ⌊x⌋ then ⌊x⌋ else ⌊x⌋ + 1

/-- `new_scale = max(0.1, min(old_scale * factor, 16.0))` of `_zoom_at_point`. -/
def clampScale (x : ℚ) : ℚ := max (1 / 10) (min x 16)

/-- `Canvas._to_image_coords`: divide widget coordinates by the scale. -/
def to_image_coords (scale : ℚ) (wp : ℤ × ℤ) : ℚ × ℚ :=
  ((wp.1 : ℚ) / scale, (wp.2 : ℚ) / scale)

/-- `Canvas._to_widget_coords`: multiply by the scale and round via
`QPointF.toPoint()`. -/
def to_widget_coords (scale : ℚ) (ip : ℚ × ℚ) : ℤ × ℤ :=
  (qRound (ip.1 * scale), qRound (ip.2 * scale))

/-- `Canvas._zoom_at_point`: result is the new scale factor together with
the new horizontal and vertical scrollbar values.  The no-op branch returns
everything unchanged. -/
def zoom_at_point (scale : ℚ) (factor : ℚ) (wp : ℚ × ℚ) (hbar vbar : ℤ) :
    ℚ × ℤ × ℤ :=
  let ns := clampScale (scale * factor)
  if |ns - scale| < 1 / 1000 then (scale, hbar, vbar)
  else
    let ip : ℚ × ℚ := (wp.1 / scale, wp.2 / scale)
    let tp : ℚ × ℚ := (ip.1 * ns, ip.2 * ns)
    (ns, hbar + pyRound (tp.1 - wp.1), vbar + pyRound (tp.2 - wp.2))

/-!
## The canvas state and its operations
-/

/-- The drawing tools of the toolbar. -/
inductive Tool where
  | brush
  | eraser
  | bucket
deriving DecidableEq, Repr

/-- The Qt signals emitted by `Canvas`. -/
inductive Sig where
  | colorChanged (c : Color)
  | penSizeChanged (n : Int)
  | historyChanged
deriving DecidableEq, Repr

/-- One history entry: `(self.image.copy(), self._image_size)`. -/
structure Snapshot where
  pix : Pt → Color
  w : Int
  h : Int

/-- The state of the `Canvas` widget relevant to the claims. -/
structure Canvas where
  tool : Tool
  color : Color
  brushSize : Int
  eraserSize : Int
  w : Int
  h : Int
  pix : Pt → Color
  scale : ℚ
  undoStack : List Snapshot
  redoStack : List Snapshot
  strokeSaved : Bool
  drawing : Bool
  lastPoint : ℚ × ℚ

/-- `deque(maxlen=MAX_UNDO_STATES).append`: push on the right, evicting the
oldest (leftmost) entry when the deque is full. -/
def dequeAppend (l : List Snapshot) (x : Snapshot) : List Snapshot :=
  if l.length < MAX_UNDO_STATES then l ++ [x] else l.tail ++ [x]

/-- `Canvas._save_state(initial)`: push a copy of the live image onto the
undo stack, clear the redo stack unless `initial`, emit `history_changed`,
and reset `_current_stroke_saved`. -/
def save_state (c : Canvas) (initial : Bool) : Canvas × List Sig :=
  let snap : Snapshot := ⟨c.pix, c.w, c.h⟩
  let c1 := { c with undoStack := dequeAppend c.undoStack snap }
  let c2 := if initial then c1 else { c1 with redoStack := [] }
  ({ c2 with strokeSaved := false }, [Sig.historyChanged])

/-- `Canvas.can_undo()`: more than one entry on the undo stack. -/
def can_undo (c : Canvas) : Bool := decide (1 < c.undoStack.length)

/-- `Canvas.can_redo()`: the redo stack is non-empty. -/
def can_redo (c : Canvas) : Bool := decide (0 < c.redoStack.length)

/-- `Canvas.undo()`: no-op unless `can_undo`; otherwise push the live state
onto the redo stack and pop the top (rightmost) undo entry as the new live
state. -/
def undo (c : Canvas) : Canvas × List Sig :=
  if 1 < c.undoStack.length then
    let redo1 := dequeAppend c.redoStack ⟨c.pix, c.w, c.h⟩
    match c.undoStack.getLast? with
    | some prev =>
        ({ c with pix := prev.pix, w := prev.w, h := prev.h,
                  undoStack := c.undoStack.dropLast, redoStack := redo1 },
         [Sig.historyChanged])
    | none => (c, [])
  else (c, [])

/-- `Canvas.redo()`: symmetric to `undo`. -/
def redo (c : Canvas) : Canvas × List Sig :=
  if 0 < c.redoStack.length then
    let undo1 := dequeAppend c.undoStack ⟨c.pix, c.w, c.h⟩
    match c.redoStack.getLast? with
    | some nxt =>
        ({ c with pix := nxt.pix, w := nxt.w, h := nxt.h,
                  undoStack := undo1, redoStack := c.redoStack.dropLast },
         [Sig.historyChanged])
    | none => (c, [])
  else (c, [])

/-- `Canvas.clear_canvas()`: mark the stroke saved, capture the (still
unmodified) state, then fill the image with transparent. -/
def clear_canvas (c : Canvas) : Canvas × List Sig :=
  let c1 := { c with strokeSaved := true }
  let r := save_state c1 false
  ({ r.1 with pix := fun _ => transparent }, r.2)

/-- `Canvas.resize_canvas(new_width, new_height)`: no-op when the size is
unchanged; otherwise capture the state, then replace the image by a
transparent buffer of the new size with the old content copied over the
rectangular intersection (`boundedTo` = componentwise `min`) at the origin. -/
def resize_canvas (c : Canvas) (nw nh : Int) : Canvas × List Sig :=
  if nw = c.w ∧ nh = c.h then (c, [])
  else
    let r := save_state c false
    let c1 := r.1
    let bw := min c1.w nw
    let bh := min c1.h nh
    let newPix : Pt → Color := fun p =>
      if 0 ≤ p.1 ∧ p.1 < bw ∧ 0 ≤ p.2 ∧ p.2 < bh then c1.pix p else transparent
    ({ c1 with pix := newPix, w := nw, h := nh }, r.2)

/-- The value-clamping of the resize dialog's `QSpinBox.setRange(1,
MAX_CANVAS_DIM)`: any value entering the spinbox is clamped into range. -/
def spinClamp (x : Int) : Int := max 1 (min x MAX_CANVAS_DIM)

/-- The left-button branch of `Canvas.mousePressEvent`.  `dab` stands for
the Qt painter call of `draw_point` (an external-library rasterization that
maps the current image to the image with one dab painted); the bucket branch
runs `flood_fill` and then `_save_state()`, the drawing branch paints the
dab and then calls `_save_state()` — in both branches the capture happens
after the image has been mutated, exactly as in the source. -/
def mouse_press_left (dab : (Pt → Color) → (Pt → Color)) (c : Canvas)
    (wpos : ℚ × ℚ) : Canvas × List Sig :=
  let ipf : ℚ × ℚ := (wpos.1 / c.scale, wpos.2 / c.scale)
  let ipi : Pt := (qRound ipf.1, qRound ipf.2)
  if c.tool = Tool.bucket then
    let c1 := { c with pix := flood_fill c.w c.h c.pix ipi c.color false }
    save_state { c1 with strokeSaved := true } false
  else
    let c1 := { c with drawing := true, lastPoint := ipf }
    let c2 := { c1 with pix := dab c1.pix }
    save_state { c2 with strokeSaved := true } false

/-- `Canvas.set_color(color)`: if the color is valid, store it and emit
`color_changed` — unconditionally, even when the color did not change. -/
def set_color (c : Canvas) (col : Color) (valid : Bool) : Canvas × List Sig :=
  if valid then ({ c with color := col }, [Sig.colorChanged col])
  else (c, [])

/-- `Canvas.current_pen_size`. -/
def current_pen_size (c : Canvas) : Int :=
  match c.tool with
  | Tool.brush => c.brushSize
  | Tool.eraser => c.eraserSize
  | Tool.bucket => 1

/-- `max(MIN_PEN_SIZE, min(size, MAX_PEN_SIZE))`. -/
def clampPen (size : Int) : Int := max MIN_PEN_SIZE (min size MAX_PEN_SIZE)

/-- `Canvas.set_pen_size(size)`: clamp, store for the active tool if
different — and emit no signal (only a repaint is requested). -/
def set_pen_size (c : Canvas) (size : Int) : Canvas × List Sig :=
  let ns := clampPen size
  if c.tool = Tool.brush ∧ c.brushSize ≠ ns then
    ({ c with brushSize := ns }, [])
  else if c.tool = Tool.eraser ∧ c.eraserSize ≠ ns then
    ({ c with eraserSize := ns }, [])
  else (c, [])

/-- `Canvas.adjust_size(delta)`: clamp the adjusted size, store it for the
active tool if different, and emit `pen_size_changed` exactly when it
changed. -/
def adjust_size (c : Canvas) (delta : Int) : Canvas × List Sig :=
  let ns := clampPen (current_pen_size c + delta)
  if c.tool = Tool.brush ∧ c.brushSize ≠ ns then
    ({ c with brushSize := ns }, [Sig.penSizeChanged ns])
  else if c.tool = Tool.eraser ∧ c.eraserSize ≠ ns then
    ({ c with eraserSize := ns }, [Sig.penSizeChanged ns])
  else (c, [])

/-- `Canvas.set_tool(tool)`: when the tool changes, emit `pen_size_changed`
with the new tool's pen size. -/
def set_tool (c : Canvas) (t : Tool) : Canvas × List Sig :=
  if t ≠ c.tool then
    let c1 := { c with tool := t }
    (c1, [Sig.penSizeChanged (current_pen_size c1)])
  else (c, [])

/-- "The clamped adjusted size differs from the active tool's current size":
the condition under which `adjust_size` commits a change. -/
def adjustChanges (c : Canvas) (delta : Int) : Prop :=
  (c.tool = Tool.brush ∧ c.brushSize ≠ clampPen (current_pen_size c + delta)) ∨
  (c.tool = Tool.eraser ∧ c.eraserSize ≠ clampPen (current_pen_size c + delta))

instance (c : Canvas) (delta : Int) : Decidable (adjustChanges c delta) := by
  unfold adjustChanges
  infer_instance

/-!
## Concrete states used in witnesses and counterexamples
-/

/-- A 2×2 test image: black top row (`y = 0`), white bottom row. -/
def img2 : Pt → Color := fun p => if p.2 = 0 then black else white

/-- A fully transparent image. -/
def imgT : Pt → Color := fun _ => transparent

/-- A fully black image. -/
def imgB : Pt → Color := fun _ => black

/-- The canvas right after application start-up (`set_up_canvas` →
`clear_canvas`), shrunk to a 2×2 buffer: transparent image, one baseline
snapshot on the undo stack, black brush color, bucket tool selected. -/
def c0 : Canvas :=
  { tool := Tool.bucket
    color := black
    brushSize := DEFAULT_PEN_SIZE
    eraserSize := DEFAULT_PEN_SIZE
    w := 2
    h := 2
    pix := imgT
    scale := 1
    undoStack := [⟨imgT, 2, 2⟩]
    redoStack := []
    strokeSaved := false
    drawing := false
    lastPoint := (0, 0) }

/-- A 2×2 canvas whose buffer is entirely black (equal to the current
color), with one undo entry and one redo entry pending. -/
def cB : Canvas :=
  { tool := Tool.bucket
    color := black
    brushSize := DEFAULT_PEN_SIZE
    eraserSize := DEFAULT_PEN_SIZE
    w := 2
    h := 2
    pix := imgB
    scale := 1
    undoStack := [⟨imgT, 2, 2⟩]
    redoStack := [⟨imgT, 2, 2⟩]
    strokeSaved := false
    drawing := false
    lastPoint := (0, 0) }

/-- A 2×2 canvas with the brush tool active (brush size 5). -/
def cBrush : Canvas :=
  { tool := Tool.brush
    color := black
    brushSize := DEFAULT_PEN_SIZE
    eraserSize := DEFAULT_PEN_SIZE
    w := 2
    h := 2
    pix := imgT
    scale := 1
    undoStack := [⟨imgT, 2, 2⟩]
    redoStack := []
    strokeSaved := false
    drawing := false
    lastPoint := (0, 0) }

/-!
## Helper lemmas: reachability
-/

theorem ReachesIn.head {U : Pt → Prop} {a b : Pt} (h : ReachesIn U a b) : U a := by
  cases h with
  | refl _ hp => exact hp
  | step _ _ _ hq _ _ => exact hq

theorem ReachesIn.last {U : Pt → Prop} {a b : Pt} (h : ReachesIn U a b) : U b := by
  induction h with
  | refl _ hp => exact hp
  | step _ _ _ _ _ _ ih => exact ih

theorem ReachesIn.snoc {U : Pt → Prop} {a b c : Pt} (h : ReachesIn U a b)
    (hadj : Adj b c) (hc : U c) : ReachesIn U a c := by
  induction h with
  | refl p hp => exact ReachesIn.step p c c hp hadj (ReachesIn.refl c hc)
  | step q r p hq hqr _ ih => exact ReachesIn.step q r c hq hqr (ih hadj)

theorem ReachesIn.mono {U V : Pt → Prop} (hUV : ∀ r, U r → V r) {a b : Pt}
    (h : ReachesIn U a b) : ReachesIn V a b := by
  induction h with
  | refl p hp => exact ReachesIn.refl p (hUV p hp)
  | step q r p hq hqr _ ih => exact ReachesIn.step q r p (hUV q hq) hqr ih

/-- Path surgery: from a path `q → p` inside `U` that need not avoid `z`
(with `p ≠ z`), extract a path inside `U \ {z}` starting either at `q`
itself or at a neighbor of `z`. -/
theorem ReachesIn.avoid {U : Pt → Prop} {q p z : Pt} (h : ReachesIn U q p)
    (hp : p ≠ z) :
    ∃ n, (n = q ∨ Adj z n) ∧ ReachesIn (fun r => U r ∧ r ≠ z) n p := by
  induction h with
  | refl a ha => exact ⟨a, Or.inl rfl, ReachesIn.refl a ⟨ha, hp⟩⟩
  | step a r b ha har hrb ih =>
      rcases ih hp with ⟨n, hn, hreach⟩
      rcases hn with hn | hn
      · subst hn
        by_cases haz : a = z
        · subst haz
          exact ⟨n, Or.inr har, hreach⟩
        · exact ⟨a, Or.inl rfl, ReachesIn.step a n b ⟨ha, haz⟩ har hreach⟩
      · exact ⟨n, Or.inr hn, hreach⟩

/-!
## Helper lemmas: neighbors, border, processed-list bookkeeping
-/

theorem nodup_neighborsOf (p : Pt) : (neighborsOf p).Nodup := by
  simp [neighborsOf, Prod.ext_iff]
  omega

theorem mem_borderSet {w h : Int} {p : Pt} :
    p ∈ borderSet w h ↔ -1 ≤ p.1 ∧ p.1 ≤ w ∧ -1 ≤ p.2 ∧ p.2 ≤ h := by
  cases p with
  | mk x y =>
      simp [borderSet, Finset.mem_product, Finset.mem_Icc, and_assoc]

theorem neighbor_mem_borderSet {w h : Int} {p n : Pt} (hp : inBP w h p)
    (hn : n ∈ neighborsOf p) : n ∈ borderSet w h := by
  rcases hp with ⟨h1, h2, h3, h4⟩
  simp only [neighborsOf, List.mem_cons, List.mem_singleton,
    List.not_mem_nil, or_false] at hn
  rcases hn with hn | hn | hn | hn <;> subst hn <;>
    simp only [mem_borderSet] <;> constructor <;> omega

theorem seed_mem_borderSet {w h : Int} {p : Pt} (hp : inBP w h p) :
    p ∈ borderSet w h := by
  rcases hp with ⟨h1, h2, h3, h4⟩
  rw [mem_borderSet]
  omega

theorem nodup_length_le_card {l : List Pt} {s : Finset Pt} (hnd : l.Nodup)
    (hsub : ∀ p ∈ l, p ∈ s) : l.length ≤ s.card := by
  classical
  calc l.length = l.toFinset.card := (List.toFinset_card_of_nodup hnd).symm
  _ ≤ s.card := Finset.card_le_card fun x hx => hsub x (List.mem_toFinset.mp hx)

theorem card_borderSet (w h : Int) : (borderSet w h).card = floodFillFuel w h := by
  rw [borderSet, Finset.card_product, Int.card_Icc, Int.card_Icc, floodFillFuel]
  have h1 : w + 1 - (-1) = w + 2 := by ring
  have h2 : h + 1 - (-1) = h + 2 := by ring
  rw [h1, h2]

/-!
## Flood fill: loop equations and invariant preservation
-/

theorem fillLoop_nil {w h : Int} {target fillc : Color} {fuel : Nat} {s : FillSt}
    (hq : s.queue = []) : fillLoop w h target fillc fuel s = s := by
  cases fuel with
  | zero => rfl
  | succ fuel =>
      cases s with
      | mk pix queue proc =>
          subst hq
          rfl

theorem fillLoop_cons {w h : Int} {target fillc : Color} {fuel : Nat} {s : FillSt}
    {p : Pt} {rest : List Pt} (hq : s.queue = p :: rest) :
    fillLoop w h target fillc (fuel + 1) s =
      fillLoop w h target fillc fuel
        (fillStep w h target fillc p rest s.pix s.processed) := by
  cases s with
  | mk pix queue proc =>
      subst hq
      rfl

section FillInvariant

variable {w h : Int} {img0 : Pt → Color} {seed : Pt} {target fillc : Color}

theorem Ucur_setPix_iff (hTF : target ≠ fillc) {pix : Pt → Color} {z : Pt}
    (r : Pt) :
    Ucur w h target (setPix pix z fillc) r ↔ Ucur w h target pix r ∧ r ≠ z := by
  by_cases hrz : r = z
  · subst hrz
    simp [Ucur, setPix, Ne.symm hTF]
  · simp [Ucur, setPix, hrz]

/-- Invariant preservation when the dequeued pixel is skipped (out of bounds
or not target-colored). -/
theorem fillInv_skip {s : FillSt} (hinv : FillInv w h img0 seed target fillc s)
    {p : Pt} {rest : List Pt} (hq : s.queue = p :: rest)
    (hnotU : ¬ Ucur w h target s.pix p) :
    FillInv w h img0 seed target fillc ⟨s.pix, rest, s.processed⟩ := by
  refine ⟨hinv.mono, hinv.sound, ?_, ?_, ?_⟩
  · intro x hxR hxne
    rcases hinv.complete x hxR hxne with ⟨q, hqmem, hreach⟩
    rw [hq] at hqmem
    rcases List.mem_cons.mp hqmem with hqp | hqr
    · subst hqp
      exact absurd hreach.head hnotU
    · exact ⟨q, hqr, hreach⟩
  · intro x hx
    rcases hinv.procInv x hx with hmem | hfc | hnU
    · rw [hq] at hmem
      rcases List.mem_cons.mp hmem with hxp | hxr
      · subst hxp
        exact Or.inr (Or.inr hnotU)
      · exact Or.inl hxr
    · exact Or.inr (Or.inl hfc)
    · exact Or.inr (Or.inr hnU)
  · intro q hqmem
    exact hinv.queueOrigin q (by rw [hq]; exact List.mem_cons_of_mem _ hqmem)

/-- Invariant preservation across one full iteration of the loop body. -/
theorem fillStep_inv (hTF : target ≠ fillc) (hseed : inBP w h seed)
    (hst : img0 seed = target) {s : FillSt}
    (hinv : FillInv w h img0 seed target fillc s)
    {p : Pt} {rest : List Pt} (hq : s.queue = p :: rest) :
    FillInv w h img0 seed target fillc
      (fillStep w h target fillc p rest s.pix s.processed) := by
  by_cases hb : inBP w h p
  · by_cases hc : s.pix p = target
    · -- the pixel is repainted and its unprocessed neighbors enqueued
      have hpmem : p ∈ s.queue := by rw [hq]; exact List.mem_cons_self _ _
      have hpR : Reach w h img0 target seed p := by
        rcases hinv.queueOrigin p hpmem with hps | ⟨r, hrR, hradj⟩
        · subst hps
          exact ReachesIn.refl p ⟨hseed, hst⟩
        · have himg : img0 p = target := by
            rcases hinv.mono p with hm | hm
            · exact absurd (hm.symm.trans hc) (Ne.symm hTF)
            · rw [← hm]
              exact hc
          exact hrR.snoc hradj ⟨hb, himg⟩
      rw [fillStep, if_pos hb, if_pos hc]
      refine ⟨?_, ?_, ?_, ?_, ?_⟩
      · intro x
        by_cases hxp : x = p
        · subst hxp
          left
          simp [setPix]
        · rcases hinv.mono x with hm | hm
          · left
            simpa [setPix, hxp] using hm
          · right
            simpa [setPix, hxp] using hm
      · intro x hxR
        have hxp : x ≠ p := fun he => hxR (he ▸ hpR)
        simpa [setPix, hxp] using hinv.sound x hxR
      · intro x hxR hxne
        have hxp : x ≠ p := by
          intro he
          subst he
          apply hxne
          simp [setPix]
        have hxne' : s.pix x ≠ fillc := by simpa [setPix, hxp] using hxne
        rcases hinv.complete x hxR hxne' with ⟨q, hqmem, hreach⟩
        rcases hreach.avoid hxp with ⟨n, hn, hr⟩
        have hrUcur : ReachesIn (Ucur w h target (setPix s.pix p fillc)) n x :=
          hr.mono fun r hrr => (Ucur_setPix_iff hTF r).mpr hrr
        have hnU : Ucur w h target s.pix n ∧ n ≠ p := hr.head
        rcases hn with hn | hn
        · subst hn
          rw [hq] at hqmem
          rcases List.mem_cons.mp hqmem with hmem | hmem
          · exact absurd hmem hnU.2
          · exact ⟨n, List.mem_append.mpr (Or.inl hmem), hrUcur⟩
        · by_cases hproc : n ∈ s.processed
          · rcases hinv.procInv n hproc with hmem | hfc | hnU2
            · rw [hq] at hmem
              rcases List.mem_cons.mp hmem with hmem2 | hmem2
              · exact absurd hmem2 hnU.2
              · exact ⟨n, List.mem_append.mpr (Or.inl hmem2), hrUcur⟩
            · exact absurd hfc (hnU.1.2 ▸ hTF)
            · exact absurd hnU.1 hnU2
          · have hnn : n ∈ (neighborsOf p).filter
                (fun n => decide (n ∉ s.processed)) :=
              List.mem_filter.mpr ⟨hn, by simpa using hproc⟩
            exact ⟨n, List.mem_append.mpr (Or.inr hnn), hrUcur⟩
      · intro x hxmem
        rcases List.mem_append.mp hxmem with hx | hx
        · rcases hinv.procInv x hx with hmem | hfc | hnU
          · rw [hq] at hmem
            rcases List.mem_cons.mp hmem with hxp | hxr
            · subst hxp
              right
              left
              simp [setPix]
            · exact Or.inl (List.mem_append.mpr (Or.inl hxr))
          · right
            left
            by_cases hxp : x = p
            · subst hxp
              simp [setPix]
            · simpa [setPix, hxp] using hfc
          · right
            right
            intro hU
            exact hnU ((Ucur_setPix_iff hTF x).mp hU).1
        · exact Or.inl (List.mem_append.mpr (Or.inr hx))
      · intro q hqmem
        rcases List.mem_append.mp hqmem with hmem | hmem
        · exact hinv.queueOrigin q (by rw [hq]; exact List.mem_cons_of_mem _ hmem)
        · exact Or.inr ⟨p, hpR, (List.mem_filter.mp hmem).1⟩
    · rw [fillStep, if_pos hb, if_neg hc]
      exact fillInv_skip hinv hq fun hU => hc hU.2
  · rw [fillStep, if_neg hb]
    exact fillInv_skip hinv hq fun hU => hb hU.1

/-- The loop invariant is preserved by any number of loop iterations. -/
theorem fillLoop_inv (hTF : target ≠ fillc) (hseed : inBP w h seed)
    (hst : img0 seed = target) (fuel : Nat) :
    ∀ s : FillSt, FillInv w h img0 seed target fillc s →
      FillInv w h img0 seed target fillc (fillLoop w h target fillc fuel s) := by
  induction fuel with
  | zero => exact fun s hinv => hinv
  | succ fuel ih =>
      intro s hinv
      cases hq : s.queue with
      | nil =>
          rw [fillLoop_nil hq]
          exact hinv
      | cons p rest =>
          rw [fillLoop_cons hq]
          exact ih _ (fillStep_inv hTF hseed hst hinv hq)

/-- One loop iteration preserves the bookkeeping invariant and decreases the
termination measure by exactly one. -/
theorem fillStep_term {s : FillSt} (hts : TermSt w h s)
    {p : Pt} {rest : List Pt} (hq : s.queue = p :: rest) :
    TermSt w h (fillStep w h target fillc p rest s.pix s.processed) ∧
      fillMeasure w h (fillStep w h target fillc p rest s.pix s.processed) + 1 =
        fillMeasure w h s := by
  have hqlen : s.queue.length = rest.length + 1 := by rw [hq]; rfl
  by_cases hb : inBP w h p
  · by_cases hc : s.pix p = target
    · rw [fillStep, if_pos hb, if_pos hc]
      have hnodup : (s.processed ++
          (neighborsOf p).filter (fun n => decide (n ∉ s.processed))).Nodup := by
        rw [List.nodup_append]
        refine ⟨hts.nodup, (nodup_neighborsOf p).filter _, ?_⟩
        intro x hx hx2
        have := (List.mem_filter.mp hx2).2
        simp only [decide_eq_true_eq] at this
        exact this hx
      have hborder : ∀ x ∈ s.processed ++
          (neighborsOf p).filter (fun n => decide (n ∉ s.processed)),
          x ∈ borderSet w h := by
        intro x hx
        rcases List.mem_append.mp hx with hx | hx
        · exact hts.inBorder x hx
        · exact neighbor_mem_borderSet hb (List.mem_filter.mp hx).1
      refine ⟨⟨hnodup, hborder⟩, ?_⟩
      have hle := nodup_length_le_card hnodup hborder
      rw [List.length_append] at hle
      unfold fillMeasure
      simp only [List.length_append, hqlen]
      omega
    · rw [fillStep, if_pos hb, if_neg hc]
      refine ⟨⟨hts.nodup, hts.inBorder⟩, ?_⟩
      unfold fillMeasure
      simp only [hqlen]
      omega
  · rw [fillStep, if_neg hb]
    refine ⟨⟨hts.nodup, hts.inBorder⟩, ?_⟩
    unfold fillMeasure
    simp only [hqlen]
    omega

/-- With fuel at least the termination measure, the loop drains its queue:
the traversal terminates within `fillMeasure` iterations. -/
theorem fillLoop_term (fuel : Nat) :
    ∀ s : FillSt, TermSt w h s → fillMeasure w h s ≤ fuel →
      (fillLoop w h target fillc fuel s).queue = [] ∧
        TermSt w h (fillLoop w h target fillc fuel s) := by
  induction fuel with
  | zero =>
      intro s hts hm
      have hq : s.queue = [] := by
        have hlen : s.queue.length = 0 := by
          unfold fillMeasure at hm
          omega
        exact List.length_eq_zero.mp hlen
      rw [fillLoop_nil hq]
      exact ⟨hq, hts⟩
  | succ fuel ih =>
      intro s hts hm
      cases hq : s.queue with
      | nil =>
          rw [fillLoop_nil hq]
          exact ⟨hq, hts⟩
      | cons p rest =>
          rw [fillLoop_cons hq]
          obtain ⟨hts2, hmeq⟩ := fillStep_term hts hq
          exact ih _ hts2 (by omega)

end FillInvariant

/-!
## The flood-fill correctness theorem (used by claims C3 and C5)
-/

/-- The initial loop state satisfies the loop invariant. -/
theorem fillInv_init {w h : Int} {img : Pt → Color} {seed : Pt} {cur : Color} :
    FillInv w h img seed (img seed) cur ⟨img, [seed], [seed]⟩ := by
  refine ⟨fun x => Or.inr rfl, fun x _ => rfl, ?_, ?_, ?_⟩
  · intro x hxR _
    exact ⟨seed, List.mem_singleton.mpr rfl, hxR⟩
  · intro x hx
    exact Or.inl hx
  · intro q hqm
    exact Or.inl (List.mem_singleton.mp hqm)

/-- The initial loop state satisfies the bookkeeping invariant. -/
theorem fillTerm_init {w h : Int} {img : Pt → Color} {seed : Pt}
    (hseed : inBP w h seed) : TermSt w h ⟨img, [seed], [seed]⟩ := by
  refine ⟨List.nodup_singleton _, ?_⟩
  intro x hx
  rw [List.mem_singleton.mp hx]
  exact seed_mem_borderSet hseed

/-- The initial measure fits in the canonical fuel `(w+2)*(h+2)`. -/
theorem fillMeasure_init_le {w h : Int} {img : Pt → Color} {seed : Pt}
    (hseed : inBP w h seed) :
    fillMeasure w h ⟨img, [seed], [seed]⟩ ≤ floodFillFuel w h := by
  have hB : 1 ≤ (borderSet w h).card :=
    Finset.card_pos.mpr ⟨seed, seed_mem_borderSet hseed⟩
  unfold fillMeasure
  rw [card_borderSet] at *
  simp only [List.length_singleton]
  omega

/-- Full characterization of `flood_fill` at an in-bounds seed: region
pixels become the fill color, all other pixels keep their original color. -/
theorem flood_fill_result {w h : Int} {img : Pt → Color} {seed : Pt}
    {cur : Color} (hseed : inBP w h seed) (p : Pt) :
    (fillRegion w h img seed p → flood_fill w h img seed cur false p = cur) ∧
    (¬ fillRegion w h img seed p → flood_fill w h img seed cur false p = img p) := by
  have hff : flood_fill w h img seed cur false =
      if img seed = cur then img
      else (fillLoop w h (img seed) cur (floodFillFuel w h)
        ⟨img, [seed], [seed]⟩).pix := by
    unfold flood_fill
    rw [if_pos hseed]
    rfl
  by_cases htf : img seed = cur
  · rw [hff, if_pos htf]
    constructor
    · intro hR
      exact hR.last.2.trans htf
    · intro _
      rfl
  · rw [hff, if_neg htf]
    have hinvF := fillLoop_inv htf hseed rfl (floodFillFuel w h) _
      (@fillInv_init w h img seed cur)
    obtain ⟨hqe, _⟩ := fillLoop_term (floodFillFuel w h) _
      (fillTerm_init hseed) (fillMeasure_init_le hseed)
    constructor
    · intro hR
      by_contra hne
      rcases hinvF.complete p hR hne with ⟨q, hqm, _⟩
      rw [hqe] at hqm
      exact absurd hqm (List.not_mem_nil q)
    · intro hR
      exact hinvF.sound p hR

/-!
## Helper lemmas: canvas operations
-/

theorem qRound_zero : qRound 0 = 0 := by
  unfold qRound
  norm_num

theorem qRound_intCast (n : ℤ) : qRound (n : ℚ) = n := by
  unfold qRound
  rcases le_or_lt 0 (n : ℚ) with hn | hn
  · rw [if_pos hn, Int.floor_int_add]
    norm_num
  · rw [if_neg (not_le.mpr hn),
      show ((n : ℚ) - 1 / 2) = (-(1 / 2 : ℚ)) + (n : ℚ) by ring, Int.ceil_add_int]
    norm_num

/-- The bucket branch of `mousePressEvent`: flood-fill at the converted
image point, then capture the (already mutated) state. -/
theorem mouse_press_left_bucket (dab : (Pt → Color) → (Pt → Color))
    (c : Canvas) (wpos : ℚ × ℚ) (hb : c.tool = Tool.bucket) :
    mouse_press_left dab c wpos =
      save_state { c with
        pix := flood_fill c.w c.h c.pix
          (qRound (wpos.1 / c.scale), qRound (wpos.2 / c.scale)) c.color false,
        strokeSaved := true } false := by
  unfold mouse_press_left
  rw [if_pos hb]

/-- The drawing branch of `mousePressEvent`: paint the first dab, then
capture the (already mutated) state. -/
theorem mouse_press_left_draw (dab : (Pt → Color) → (Pt → Color))
    (c : Canvas) (wpos : ℚ × ℚ) (hb : ¬ c.tool = Tool.bucket) :
    mouse_press_left dab c wpos =
      save_state { c with
        drawing := true
        lastPoint := (wpos.1 / c.scale, wpos.2 / c.scale)
        pix := dab c.pix
        strokeSaved := true } false := by
  unfold mouse_press_left
  rw [if_neg hb]

/-- At scale 1 and a press at the widget origin, the bucket gesture reduces
to flood fill at image point (0,0) followed by the state capture. -/
theorem mouse_press_left_bucket_origin (dab : (Pt → Color) → (Pt → Color))
    (c : Canvas) (hb : c.tool = Tool.bucket) (hs : c.scale = 1) :
    mouse_press_left dab c (0, 0) =
      save_state { c with
        pix := flood_fill c.w c.h c.pix (0, 0) c.color false,
        strokeSaved := true } false := by
  rw [mouse_press_left_bucket dab c (0, 0) hb]
  have hq : (qRound (((0 : ℚ), (0 : ℚ)).1 / c.scale),
      qRound (((0 : ℚ), (0 : ℚ)).2 / c.scale)) = ((0 : ℤ), (0 : ℤ)) := by
    rw [hs]
    norm_num [qRound]
  rw [hq]

/-- `flood_fill` is the identity when the seed already has the fill color. -/
theorem flood_fill_same_color {w h : Int} {pix : Pt → Color} {seed : Pt}
    {cur : Color} (hseed : inBP w h seed) (hcol : pix seed = cur) :
    flood_fill w h pix seed cur false = pix := by
  unfold flood_fill
  rw [if_pos hseed]
  simp [hcol]


/-!
## Claim theorems
-/

/-- C1 (evaluation of the code at the failing input): on the freshly
started 2×2 canvas `c0` (one transparent baseline snapshot, bucket tool,
black color), `canUndo` is false before the gesture and true after it, yet
after the single mutating fill action a single `undo()` leaves pixel (0,0)
black — not the transparent baseline — and no further undo is possible,
because `mousePressEvent` captures the state only after the mutation. -/
theorem claim_C1_undo_does_not_restore_baseline :
    can_undo c0 = false ∧
    can_undo (mouse_press_left id c0 (0, 0)).1 = true ∧
    (undo (mouse_press_left id c0 (0, 0)).1).1.pix (0, 0) = black ∧
    c0.pix (0, 0) = transparent ∧
    black ≠ transparent ∧
    can_undo (undo (mouse_press_left id c0 (0, 0)).1).1 = false := by
  rw [mouse_press_left_bucket_origin id c0 rfl rfl]
  decide

/-- C3: for every buffer, in-bounds seed point and fill color, flood fill
repaints exactly the pixels 4-connected-reachable from the seed through
pixels of the seed's original color, setting each of them to the fill
color, and leaves every other pixel (including all differently-colored
boundary pixels) unchanged. -/
theorem claim_C3_flood_fill_exact_region (w h : Int) (img : Pt → Color)
    (seed : Pt) (cur : Color) (hseed : inBP w h seed) (p : Pt) :
    (fillRegion w h img seed p → flood_fill w h img seed cur false p = cur) ∧
    (¬ fillRegion w h img seed p → flood_fill w h img seed cur false p = img p) :=
  flood_fill_result hseed p

/-- Witness for C3: filling the black top row of `img2` with red at seed
(0,0) recolors (0,0) (a region pixel) to red and leaves the white pixel
(0,1) unchanged. -/
theorem claim_C3_flood_fill_exact_region_witness :
    inBP 2 2 ((0 : Int), (0 : Int)) ∧
    flood_fill 2 2 img2 (0, 0) redCol false (0, 0) = redCol ∧
    flood_fill 2 2 img2 (0, 0) redCol false (0, 1) = img2 (0, 1) := by
  refine ⟨by decide, ?_, ?_⟩
  · exact (claim_C3_flood_fill_exact_region 2 2 img2 (0, 0) redCol (by decide)
      (0, 0)).1 (ReachesIn.refl _ ⟨by decide, rfl⟩)
  · exact (claim_C3_flood_fill_exact_region 2 2 img2 (0, 0) redCol (by decide)
      (0, 1)).2 fun hR => absurd hR.last.2 (by decide)

/-- C5: for any in-bounds seed, the flood-fill traversal started on the
singleton queue/processed state drains its queue within the canonical fuel
`(w+2)*(h+2)` (the buffer area plus its one-pixel border), the visited set
never holds a coordinate twice (each coordinate is enqueued at most once),
and the number of coordinates ever enqueued is bounded by that same area
bound. -/
theorem claim_C5_flood_fill_terminates (w h : Int) (img : Pt → Color)
    (seed : Pt) (target fillc : Color) (hseed : inBP w h seed) :
    (fillLoop w h target fillc (floodFillFuel w h)
        ⟨img, [seed], [seed]⟩).queue = [] ∧
    (fillLoop w h target fillc (floodFillFuel w h)
        ⟨img, [seed], [seed]⟩).processed.Nodup ∧
    (fillLoop w h target fillc (floodFillFuel w h)
        ⟨img, [seed], [seed]⟩).processed.length ≤ floodFillFuel w h := by
  obtain ⟨hq, hts⟩ := fillLoop_term (floodFillFuel w h) _ (fillTerm_init hseed)
    (fillMeasure_init_le hseed)
  refine ⟨hq, hts.nodup, ?_⟩
  have hlen := nodup_length_le_card hts.nodup hts.inBorder
  rwa [card_borderSet] at hlen

/-- Witness for C5 at a concrete 2×2 buffer and seed (0,0). -/
theorem claim_C5_flood_fill_terminates_witness :
    inBP 2 2 ((0 : Int), (0 : Int)) ∧
    (fillLoop 2 2 black redCol (floodFillFuel 2 2)
        ⟨img2, [(0, 0)], [(0, 0)]⟩).queue = [] ∧
    (fillLoop 2 2 black redCol (floodFillFuel 2 2)
        ⟨img2, [(0, 0)], [(0, 0)]⟩).processed.Nodup ∧
    (fillLoop 2 2 black redCol (floodFillFuel 2 2)
        ⟨img2, [(0, 0)], [(0, 0)]⟩).processed.length ≤ floodFillFuel 2 2 := by
  have hmain := claim_C5_flood_fill_terminates 2 2 img2 (0, 0) black redCol
    (by decide)
  exact ⟨by decide, hmain⟩

/-- C2 counterexample: after the bucket press on `c0` (a fill action), the
top of the undo stack holds the post-fill image — its pixel (0,0) is black —
while the pre-mutation buffer had transparent at (0,0); so the top entry
does not equal the pre-mutation state, refuting the claim as stated. -/
theorem claim_C2_counterexample :
    ((mouse_press_left id c0 (0, 0)).1.undoStack.getLast?.map
      fun s => s.pix (0, 0)) = some black ∧
    c0.pix (0, 0) = transparent := by
  rw [mouse_press_left_bucket_origin id c0 rfl rfl]
  decide

/-- C2 amended: each of the four mutating entry points performs exactly one
capture (one `dequeAppend` push) and clears the redo stack, but the snapshot
pushed is the pre-mutation state only for `clear_canvas` and
`resize_canvas`; for a bucket press it is the post-fill image and for a
stroke press it is the image with the first dab already painted. -/
theorem claim_C2_amended_capture_timing :
    (∀ c : Canvas,
      (clear_canvas c).1.undoStack = dequeAppend c.undoStack ⟨c.pix, c.w, c.h⟩ ∧
      (clear_canvas c).1.redoStack = []) ∧
    (∀ (c : Canvas) (nw nh : Int), ¬ (nw = c.w ∧ nh = c.h) →
      (resize_canvas c nw nh).1.undoStack =
        dequeAppend c.undoStack ⟨c.pix, c.w, c.h⟩ ∧
      (resize_canvas c nw nh).1.redoStack = []) ∧
    (∀ (dab : (Pt → Color) → (Pt → Color)) (c : Canvas) (wpos : ℚ × ℚ),
      c.tool = Tool.bucket →
      (mouse_press_left dab c wpos).1.undoStack =
        dequeAppend c.undoStack
          ⟨flood_fill c.w c.h c.pix
            (qRound (wpos.1 / c.scale), qRound (wpos.2 / c.scale)) c.color false,
           c.w, c.h⟩ ∧
      (mouse_press_left dab c wpos).1.redoStack = []) ∧
    (∀ (dab : (Pt → Color) → (Pt → Color)) (c : Canvas) (wpos : ℚ × ℚ),
      ¬ c.tool = Tool.bucket →
      (mouse_press_left dab c wpos).1.undoStack =
        dequeAppend c.undoStack ⟨dab c.pix, c.w, c.h⟩ ∧
      (mouse_press_left dab c wpos).1.redoStack = []) := by
  refine ⟨?_, ?_, ?_, ?_⟩
  · intro c
    exact ⟨rfl, rfl⟩
  · intro c nw nh hne
    unfold resize_canvas
    rw [if_neg hne]
    exact ⟨rfl, rfl⟩
  · intro dab c wpos hb
    rw [mouse_press_left_bucket dab c wpos hb]
    exact ⟨rfl, rfl⟩
  · intro dab c wpos hb
    rw [mouse_press_left_draw dab c wpos hb]
    exact ⟨rfl, rfl⟩

/-- Witness for the amended C2, instantiating all four entry points on
concrete canvases and discharging their hypotheses. -/
theorem claim_C2_amended_capture_timing_witness :
    ((clear_canvas c0).1.undoStack =
      dequeAppend c0.undoStack ⟨c0.pix, c0.w, c0.h⟩) ∧
    ((resize_canvas c0 3 1).1.undoStack =
      dequeAppend c0.undoStack ⟨c0.pix, c0.w, c0.h⟩) ∧
    ((mouse_press_left id c0 (0, 0)).1.undoStack =
      dequeAppend c0.undoStack
        ⟨flood_fill c0.w c0.h c0.pix
          (qRound ((0 : ℚ) / c0.scale), qRound ((0 : ℚ) / c0.scale))
          c0.color false, c0.w, c0.h⟩) ∧
    ((mouse_press_left (fun f => setPix f (0, 0) black) cBrush (0, 0)).1.undoStack
      = dequeAppend cBrush.undoStack
        ⟨setPix cBrush.pix (0, 0) black, cBrush.w, cBrush.h⟩) :=
  ⟨(claim_C2_amended_capture_timing.1 c0).1,
   (claim_C2_amended_capture_timing.2.1 c0 3 1 (by decide)).1,
   (claim_C2_amended_capture_timing.2.2.1 id c0 (0, 0) rfl).1,
   (claim_C2_amended_capture_timing.2.2.2 (fun f => setPix f (0, 0) black)
      cBrush (0, 0) (by decide)).1⟩

/-- C4 counterexample: on the all-black canvas `cB` (seed color equals the
fill color), the bucket gesture leaves every pixel unchanged, yet the
history is NOT unchanged: the undo stack grows from 1 to 2 entries and the
non-empty redo stack is cleared — because `mousePressEvent` calls
`_save_state()` unconditionally after `flood_fill` returns. -/
theorem claim_C4_counterexample :
    (mouse_press_left id cB (0, 0)).1.pix (0, 0) = cB.pix (0, 0) ∧
    (mouse_press_left id cB (0, 0)).1.undoStack.length = 2 ∧
    cB.undoStack.length = 1 ∧
    (mouse_press_left id cB (0, 0)).1.redoStack.length = 0 ∧
    cB.redoStack.length = 1 := by
  rw [mouse_press_left_bucket_origin id cB rfl rfl]
  decide

/-- C4 amended: when the pixel at the seed already equals the fill color,
`flood_fill` itself leaves the whole buffer unchanged, but the enclosing
bucket gesture still performs a history capture: it pushes a (duplicate)
snapshot of the unchanged buffer and clears the redo stack. -/
theorem claim_C4_amended_noop_fill_still_captures (c : Canvas) (wpos : ℚ × ℚ)
    (hb : c.tool = Tool.bucket)
    (hin : inBP c.w c.h (qRound (wpos.1 / c.scale), qRound (wpos.2 / c.scale)))
    (hcol : c.pix (qRound (wpos.1 / c.scale), qRound (wpos.2 / c.scale)) =
      c.color) :
    (∀ q : Pt, (mouse_press_left id c wpos).1.pix q = c.pix q) ∧
    (mouse_press_left id c wpos).1.undoStack =
      dequeAppend c.undoStack ⟨c.pix, c.w, c.h⟩ ∧
    (mouse_press_left id c wpos).1.redoStack = [] := by
  rw [mouse_press_left_bucket id c wpos hb]
  rw [flood_fill_same_color hin hcol]
  exact ⟨fun q => rfl, rfl, rfl⟩

/-- Witness for the amended C4 on the all-black canvas `cB`. -/
theorem claim_C4_amended_noop_fill_still_captures_witness :
    (mouse_press_left id cB (0, 0)).1.pix (1, 1) = cB.pix (1, 1) ∧
    (mouse_press_left id cB (0, 0)).1.undoStack =
      dequeAppend cB.undoStack ⟨cB.pix, cB.w, cB.h⟩ ∧
    (mouse_press_left id cB (0, 0)).1.redoStack = [] := by
  have hm := claim_C4_amended_noop_fill_still_captures cB (0, 0) rfl
    (by norm_num [cB, qRound, inBP]) (by norm_num [cB, qRound, imgB])
  exact ⟨hm.1 (1, 1), hm.2.1, hm.2.2⟩

/-- C6: `_zoom_at_point` computes `newScale = clamp(scale*factor, 0.1, 16)`
and, whenever `|newScale - scale| < 0.001` — in particular for factor 1 with
an in-range current scale — it is a no-op: the scale factor is unchanged and
the scroll delta is zero (scrollbar values unchanged). -/
theorem claim_C6_zoom_noop (scale factor : ℚ) (wp : ℚ × ℚ) (hbar vbar : ℤ) :
    (|clampScale (scale * factor) - scale| < 1 / 1000 →
      zoom_at_point scale factor wp hbar vbar = (scale, hbar, vbar)) ∧
    (factor = 1 → 1 / 10 ≤ scale → scale ≤ 16 →
      zoom_at_point scale factor wp hbar vbar = (scale, hbar, vbar)) := by
  constructor
  · intro hsmall
    unfold zoom_at_point
    rw [if_pos hsmall]
  · intro hf h1 h2
    subst hf
    have hclamp : clampScale (scale * 1) = scale := by
      unfold clampScale
      rw [mul_one, min_eq_left h2, max_eq_right h1]
    unfold zoom_at_point
    rw [hclamp]
    norm_num

/-- Witness for C6: a small-difference no-op and a factor-1 no-op. -/
theorem claim_C6_zoom_noop_witness :
    zoom_at_point 2 1 (3, 4) 5 6 = (2, 5, 6) ∧
    zoom_at_point 3 1 (7, 8) 1 2 = (3, 1, 2) :=
  ⟨(claim_C6_zoom_noop 2 1 (3, 4) 5 6).2 rfl (by norm_num) (by norm_num),
   (claim_C6_zoom_noop 3 1 (7, 8) 1 2).1
     (by norm_num [clampScale, min_def, max_def])⟩

/-- C7: for every integer screen point and every scale in [0.1, 16], the
round trip image-coords → widget-coords is the identity (exactly, in the
rational model of the float arithmetic). -/
theorem claim_C7_roundtrip (scale : ℚ) (h1 : 1 / 10 ≤ scale)
    (_h2 : scale ≤ 16) (wp : ℤ × ℤ) :
    to_widget_coords scale (to_image_coords scale wp) = wp := by
  have hs : scale ≠ 0 := ne_of_gt (lt_of_lt_of_le (by norm_num) h1)
  unfold to_widget_coords to_image_coords
  rw [div_mul_cancel₀ _ hs, div_mul_cancel₀ _ hs, qRound_intCast, qRound_intCast]

/-- Witness for C7 at scale 1/2 and screen point (7, -3). -/
theorem claim_C7_roundtrip_witness :
    to_widget_coords (1 / 2) (to_image_coords (1 / 2) (7, -3)) = (7, -3) :=
  claim_C7_roundtrip (1 / 2) (by norm_num) (by norm_num) (7, -3)

/-- C8 counterexample: `Canvas.resize_canvas` itself performs no range
validation.  Called with the invalid width 0 on the 2×2 canvas `c0`, it is
not a no-op: it captures a history snapshot (undo stack grows from 1 to 2)
and sets the stored canvas width to 0, refuting "rejected as a no-op
(buffer and history unchanged)". -/
theorem claim_C8_counterexample :
    (resize_canvas c0 0 5).1.undoStack.length = 2 ∧
    c0.undoStack.length = 1 ∧
    (resize_canvas c0 0 5).1.w = 0 := by
  decide

/-- C8 amended: the [1, 10000] validation lives in the resize dialog, whose
spinboxes clamp any entered value into range, so out-of-range dimensions
cannot reach `resize_canvas` through the UI; `resize_canvas` itself, for any
new size different from the current one, captures exactly one snapshot and
rebuilds the buffer at the new size — old content on the rectangular
intersection of old and new bounds at the origin, transparent elsewhere. -/
theorem claim_C8_amended_resize_validation :
    (∀ x : Int, 1 ≤ spinClamp x ∧ spinClamp x ≤ MAX_CANVAS_DIM) ∧
    (∀ (c : Canvas) (nw nh : Int), ¬ (nw = c.w ∧ nh = c.h) →
      (resize_canvas c nw nh).1.w = nw ∧
      (resize_canvas c nw nh).1.h = nh ∧
      (∀ p : Pt, (resize_canvas c nw nh).1.pix p =
        if 0 ≤ p.1 ∧ p.1 < min c.w nw ∧ 0 ≤ p.2 ∧ p.2 < min c.h nh
        then c.pix p else transparent) ∧
      (resize_canvas c nw nh).1.undoStack =
        dequeAppend c.undoStack ⟨c.pix, c.w, c.h⟩ ∧
      (resize_canvas c nw nh).1.redoStack = []) := by
  constructor
  · intro x
    unfold spinClamp MAX_CANVAS_DIM
    constructor
    · exact le_max_left _ _
    · rcases le_or_lt x 10000 with hx | hx
      · rw [min_eq_left hx]
        rcases le_or_lt 1 x with h1 | h1
        · rw [max_eq_right h1]
          exact hx
        · rw [max_eq_left (le_of_lt h1)]
          norm_num
      · rw [min_eq_right (le_of_lt hx), max_eq_right (by norm_num)]
  · intro c nw nh hne
    unfold resize_canvas
    rw [if_neg hne]
    exact ⟨rfl, rfl, fun p => rfl, rfl, rfl⟩

/-- Witness for the amended C8: the spinbox clamp at an oversized request,
and a concrete 2×2 → 3×1 resize. -/
theorem claim_C8_amended_resize_validation_witness :
    (1 ≤ spinClamp 20000 ∧ spinClamp 20000 ≤ MAX_CANVAS_DIM) ∧
    (resize_canvas c0 3 1).1.w = 3 ∧
    (resize_canvas c0 3 1).1.undoStack =
      dequeAppend c0.undoStack ⟨c0.pix, c0.w, c0.h⟩ :=
  ⟨claim_C8_amended_resize_validation.1 20000,
   (claim_C8_amended_resize_validation.2 c0 3 1 (by decide)).1,
   (claim_C8_amended_resize_validation.2 c0 3 1 (by decide)).2.2.2.1⟩

/-- C9 counterexample: on the brush canvas `cBrush` (brush size 5), the
absolute setter `set_pen_size 7` changes the stored size to 7 but emits no
`pen_size_changed` notification, and `set_color` with the already-current
color still emits `color_changed` — both directions of "notifications fire
exactly when the value changes" fail. -/
theorem claim_C9_counterexample :
    (set_pen_size cBrush 7).1.brushSize = 7 ∧
    cBrush.brushSize = 5 ∧
    (set_pen_size cBrush 7).2 = [] ∧
    cBrush.color = black ∧
    (set_color cBrush black true).2 = [Sig.colorChanged black] := by
  decide

/-- C9 amended: the relative adjuster `adjust_size` emits `pen_size_changed`
exactly when the clamped size differs from the active tool's current size;
the absolute setter `set_pen_size` never emits it (it only triggers a
repaint); and `set_color` emits `color_changed` for every valid color, even
when the color is unchanged. -/
theorem claim_C9_amended_notifications :
    (∀ (c : Canvas) (d : Int),
      ((adjust_size c d).2 =
          [Sig.penSizeChanged (clampPen (current_pen_size c + d))] ↔
        adjustChanges c d) ∧
      ((adjust_size c d).2 = [] ↔ ¬ adjustChanges c d)) ∧
    (∀ (c : Canvas) (n : Int), (set_pen_size c n).2 = []) ∧
    (∀ (c : Canvas) (col : Color), (set_color c col true).2 =
      [Sig.colorChanged col]) := by
  refine ⟨?_, ?_, ?_⟩
  · intro c d
    unfold adjust_size adjustChanges
    by_cases hb : c.tool = Tool.brush ∧ c.brushSize ≠ clampPen (current_pen_size c + d)
    · rw [if_pos hb]
      simp [hb]
    · rw [if_neg hb]
      by_cases he : c.tool = Tool.eraser ∧
          c.eraserSize ≠ clampPen (current_pen_size c + d)
      · rw [if_pos he]
        simp [hb, he]
      · rw [if_neg he]
        simp [hb, he]
  · intro c n
    unfold set_pen_size
    by_cases hb : c.tool = Tool.brush ∧ c.brushSize ≠ clampPen n
    · rw [if_pos hb]
    · rw [if_neg hb]
      by_cases he : c.tool = Tool.eraser ∧ c.eraserSize ≠ clampPen n
      · rw [if_pos he]
      · rw [if_neg he]
  · intro c col
    rfl

/-- Witness for the amended C9 on concrete canvases, exercising both
directions of the `adjust_size` equivalence. -/
theorem claim_C9_amended_notifications_witness :
    (adjust_size cBrush 1).2 =
      [Sig.penSizeChanged (clampPen (current_pen_size cBrush + 1))] ∧
    (adjust_size cBrush 0).2 = [] ∧
    (set_pen_size cBrush 7).2 = [] ∧
    (set_color cBrush black true).2 = [Sig.colorChanged black] :=
  ⟨(claim_C9_amended_notifications.1 cBrush 1).1.mpr (by decide),
   (claim_C9_amended_notifications.1 cBrush 0).2.mpr (by decide),
   claim_C9_amended_notifications.2.1 cBrush 7,
   claim_C9_amended_notifications.2.2 cBrush black⟩

/-- C10: calling `resize_canvas` with the current dimensions is a complete
no-op: the returned canvas is the very same state (pixel buffer, scale,
undo and redo stacks all included) and no signal — in particular no
`history_changed` — is emitted, and no snapshot is captured. -/
theorem claim_C10_resize_same_size_noop (c : Canvas) :
    resize_canvas c c.w c.h = (c, []) := by
  unfold resize_canvas
  rw [if_pos ⟨rfl, rfl⟩]

end PyPaint
